import Mathlib

/-!
Verification development for the Python-documentation fathead generator
(`lib/fathead/python/parse.py`).

The development shallowly embeds the three cores of the program:
  * the record extractor (`PythonDataParser`: `parse_for_module_name`,
    `parse_for_function_name`, `parse_for_first_paragraph`, `parse_for_anchor`,
    `parse_for_method_signature`, `parse_for_class_method`, `create_url`,
    `parse_for_data`),
  * the record writer (`PythonDataOutput`: `create_names_from_data`,
    `create_file`),
  * the reconciler (`unify`, built on petl `sort` + `unique` + `lookup`).

HTML elements reached through BeautifulSoup queries are represented by the
values those queries return: each `find` result becomes an `Option` field of
`HtmlSection`.  Python string primitives used by the source (`str.replace`,
`str.strip`, `str.rstrip('.')`, `str.split('.')`, `'.'.join`) are modelled by
the executable functions below, and fallible attribute accesses (`.get` on a
possibly-`None` find result, `tag['href']`) are modelled with `Except`.
-/

namespace PyFathead

/-! ### Python string primitives -/

/-- Core loop of Python `str.replace`: non-overlapping left-to-right
replacement of `pat` by `rep`.  The `skip` counter consumes the remaining
characters of a match that has just been replaced. -/
def replace_go (pat rep : List Char) : List Char → Nat → List Char
  | [], _ => []
  | _ :: cs, Nat.succ skip => replace_go pat rep cs skip
  | c :: cs, 0 =>
    if pat.isPrefixOf (c :: cs) then rep ++ replace_go pat rep cs (pat.length - 1)
    else c :: replace_go pat rep cs 0

/-- Python `s.replace(old, new)`.  Every call site in the source passes a
non-empty `old`, so the empty-pattern edge is left as the identity. -/
def py_replace (s old new : String) : String :=
  if old.data.isEmpty then s else ⟨replace_go old.data new.data s.data 0⟩

/-- Whitespace characters stripped by Python `str.strip()` (ASCII range). -/
def is_py_space (c : Char) : Bool :=
  c == ' ' || c == '\t' || c == '\n' || c == '\r' || c == '\x0b' || c == '\x0c'

/-- Python `s.strip()`. -/
def py_strip (s : String) : String :=
  ⟨((s.data.dropWhile is_py_space).reverse.dropWhile is_py_space).reverse⟩

/-- Python `s.rstrip('.')`: remove every trailing `.` character. -/
def rstrip_dots (s : String) : String :=
  ⟨(s.data.reverse.dropWhile (fun c => c == '.')).reverse⟩

/-- Accumulator loop for Python `s.split('.')`. -/
def split_dot_go (acc : List Char) : List Char → List (List Char)
  | [] => [acc.reverse]
  | c :: cs => if c == '.' then acc.reverse :: split_dot_go [] cs else split_dot_go (c :: acc) cs

/-- Python `s.split('.')`. -/
def split_dot (s : String) : List String :=
  (split_dot_go [] s.data).map String.mk

/-- Python `'.'.join(parts)`. -/
def join_dot : List String → String
  | [] => ""
  | [x] => x
  | x :: xs => x ++ "." ++ join_dot xs

/-! ### Data model

`HtmlSection` holds exactly what the extractor's BeautifulSoup queries return
for one `dl.function` / `dl.method` block:
  * `descclassname`: text of the first `code.descclassname`, when found;
  * `descname`: text of the first `code.descname`, when found;
  * `paragraphs`: raw texts of the `p` descendants, in document order;
  * `headerlink`: the first `a.headerlink`, when found (carrying its
    optional `href` attribute);
  * `dt`: the first `dt`, when found (its text and optional `id` attribute).
-/

/-- The `a.headerlink` tag: `href` is `none` when the attribute is absent. -/
structure AnchorTag where
  href : Option String
deriving DecidableEq

/-- The `dt` tag of a block: its text and its optional `id` attribute. -/
structure DtElem where
  text : String
  id : Option String
deriving DecidableEq

/-- One `dl.function` or `dl.method` block, as seen by the extractor. -/
structure HtmlSection where
  descclassname : Option String
  descname : Option String
  paragraphs : List String
  headerlink : Option AnchorTag
  dt : Option DtElem
deriving DecidableEq

/-- One extracted record (the `data_elements` dict of `parse_for_data`). -/
structure Record where
  module : String
  function : String
  method_signature : String
  first_paragraph : String
  url : String
deriving DecidableEq

/-- One parsed document: the intro text and title computed in
`PythonDataParser.__init__`, the collected function/method blocks, and the
file/path strings used for URL construction. -/
structure Document where
  intro_text : String
  title : String
  function_sections : List HtmlSection
  method_sections : List HtmlSection
  file_being_used : String
  download_path : String
deriving DecidableEq

deriving instance DecidableEq for Except

/-! ### Record extractor -/

/-- `parse_for_module_name`: text of `code.descclassname` with trailing `.`
stripped, or the empty string when the element is missing. -/
def parse_for_module_name (s : HtmlSection) : String :=
  match s.descclassname with
  | some t => rstrip_dots t
  | none => ""

/-- `parse_for_function_name`: text of `code.descname`, or empty. -/
def parse_for_function_name (s : HtmlSection) : String :=
  match s.descname with
  | some t => t
  | none => ""

/-- The whitespace normalisation applied to paragraph text. -/
def normalize_text (t : String) : String :=
  py_replace (py_replace (py_replace t "  " " ") "\n" " ") "\\n" "\\\\n"

/-- `parse_for_first_paragraph`: first `p` with non-empty text, normalised. -/
def parse_for_first_paragraph (s : HtmlSection) : String :=
  match s.paragraphs.find? (fun p => p != "") with
  | some p => normalize_text p
  | none => ""

/-- `parse_for_anchor`: the `href` of `a.headerlink`.  A missing element
degrades to the empty string, but a present element without an `href`
attribute raises (`a_tag['href']` is a `KeyError` in the source). -/
def parse_for_anchor (s : HtmlSection) : Except Unit String :=
  match s.headerlink with
  | some a =>
    match a.href with
    | some h => .ok h
    | none => .error ()
  | none => .ok ""

/-- `parse_for_method_signature`: the `dt` text with the pilcrow removed and
newlines stripped, wrapped in a preformatted code snippet; empty if no `dt`. -/
def parse_for_method_signature (s : HtmlSection) : String :=
  match s.dt with
  | some d =>
    "<pre><code>" ++ py_replace (py_replace (py_replace d.text "¶" "") "\n" "") "\\n" "\\\\n"
      ++ "</code></pre>"
  | none => ""

/-- `parse_for_class_method`: split the `dt` tag's `id` on `.`.  The source
runs `section.find('dt').get('id')`, so a section without a `dt` raises
(`AttributeError` on `None`); a missing or empty `id` falls through to
`['', '', '']`, as does an `id` with fewer than 3 dot-segments. -/
def parse_for_class_method (s : HtmlSection) : Except Unit (String × String × String) :=
  match s.dt with
  | none => .error ()
  | some d =>
    match d.id with
    | some idTag =>
      if idTag ≠ "" then
        let tag_parts := split_dot idTag
        if tag_parts.length = 3 then
          .ok (tag_parts.getD 0 "", tag_parts.getD 1 "", tag_parts.getD 2 "")
        else if tag_parts.length > 3 then
          .ok (tag_parts.getD 0 "", tag_parts.getD 1 "", join_dot (tag_parts.drop 2))
        else .ok ("", "", "")
      else .ok ("", "", "")
    | none => .ok ("", "", "")

/-- `PYTHON_DOC_BASE_URL = 'https://docs.python.org/3.5{}'` applied via
`.format`. -/
def PYTHON_DOC_BASE_URL (x : String) : String :=
  "https://docs.python.org/3.5" ++ x

/-- `create_url`: strip the download path from the file path (Python
`str.replace`) and substitute path plus anchor into the base URL template. -/
def create_url (file_being_used download_path anchor : String) : String :=
  PYTHON_DOC_BASE_URL (py_replace file_being_used download_path "" ++ anchor)

/-- The module-level intro record, emitted only when both the intro text and
the title are non-empty. -/
def intro_records (doc : Document) : List Record :=
  if doc.intro_text ≠ "" ∧ doc.title ≠ "" then
    [{ module := doc.title, function := "", method_signature := "",
       first_paragraph := doc.intro_text,
       url := create_url doc.file_being_used doc.download_path "" }]
  else []

/-- The record produced from one `dl.function` block (`none` when the block
is skipped because module and function are both empty). -/
def function_record (doc : Document) (s : HtmlSection) : Except Unit (Option Record) :=
  if parse_for_module_name s ≠ "" ∨ parse_for_function_name s ≠ "" then
    match parse_for_anchor s with
    | .error e => .error e
    | .ok anchor =>
      .ok (some { module := parse_for_module_name s, function := parse_for_function_name s,
                  method_signature := parse_for_method_signature s,
                  first_paragraph := parse_for_first_paragraph s,
                  url := create_url doc.file_being_used doc.download_path anchor })
  else .ok none

/-- The record produced from one `dl.method` block (`none` when the derived
method name is empty, per `if method:` in the source). -/
def method_record (doc : Document) (s : HtmlSection) : Except Unit (Option Record) :=
  match parse_for_class_method s with
  | .error e => .error e
  | .ok (module, class_name, method) =>
    if method ≠ "" then
      .ok (some { module := module, function := class_name ++ "." ++ method,
                  method_signature := parse_for_method_signature s,
                  first_paragraph := parse_for_first_paragraph s,
                  url := create_url doc.file_being_used doc.download_path
                    ("#" ++ join_dot [module, class_name, method]) })
    else .ok none

/-- Collect the records of a list of blocks, propagating the first raise. -/
def records_of_sections (f : HtmlSection → Except Unit (Option Record)) :
    List HtmlSection → Except Unit (List Record)
  | [] => .ok []
  | s :: rest =>
    match f s with
    | .error e => .error e
    | .ok o =>
      match records_of_sections f rest with
      | .error e => .error e
      | .ok rs => .ok (o.toList ++ rs)

/-- `parse_for_data`: intro record, then function records, then method
records, in document order. -/
def parse_for_data (doc : Document) : Except Unit (List Record) :=
  match records_of_sections (function_record doc) doc.function_sections with
  | .error e => .error e
  | .ok fs =>
    match records_of_sections (method_record doc) doc.method_sections with
    | .error e => .error e
    | .ok ms => .ok (intro_records doc ++ fs ++ ms)

/-! ### Record writer -/

/-- An output line: 13 tab-separated fields. -/
abbrev Row := List String

/-- Field 0 of a row (`name`). -/
def row_name (r : Row) : String := r.getD 0 ""

/-- Field 11 of a row (`abstract`). -/
def row_abstract (r : Row) : String := r.getD 11 ""

/-- `create_names_from_data`: the dotted primary name and the spaced
redirect name, both stripped. -/
def create_names_from_data (module function : String) : String × String :=
  let dotted_name := module ++ (if module ≠ "" ∧ function ≠ "" then "." else "") ++ function
  let spaced_name := module ++ " " ++ function
  (py_strip dotted_name, py_strip spaced_name)

/-- The abstract computed in `create_file`: signature and paragraph joined
by `<br>` when both are non-empty. -/
def abstract_of (method_signature first_paragraph : String) : String :=
  method_signature ++ (if method_signature ≠ "" ∧ first_paragraph ≠ "" then "<br>" else "")
    ++ first_paragraph

/-- The `A` (article) output row written by `create_file`. -/
def a_row (name abstract url : String) : Row :=
  [name, "A", "", "", "", "", "", "", "https://docs.python.org", "", "", abstract, url]

/-- The `R` (redirect) output row written by `create_file`. -/
def r_row (redirect name : String) : Row :=
  [redirect, "R", name, "", "", "", "", "", "", "", "", "", ""]

/-- The rows `create_file` writes for one record: nothing when module and
function are both empty, otherwise one `A` row followed by an `R` row when
the redirect name differs from the primary name. -/
def rows_for_record (d : Record) : List Row :=
  if d.module ≠ "" ∨ d.function ≠ "" then
    a_row (create_names_from_data d.module d.function).1
        (abstract_of d.method_signature d.first_paragraph) d.url ::
      (if (create_names_from_data d.module d.function).2 ≠
          (create_names_from_data d.module d.function).1
       then [r_row (create_names_from_data d.module d.function).2
              (create_names_from_data d.module d.function).1]
       else [])
  else []

/-- `create_file` over a whole record list. -/
def create_file (data : List Record) : List Row :=
  (data.map rows_for_record).flatten

/-! ### Reconciler (`unify`) -/

/-- Lexicographic comparison of strings by code point, the order Python's
`sorted` uses on `str` keys. -/
def chars_le : List Char → List Char → Bool
  | [], _ => true
  | _ :: _, [] => false
  | a :: as, b :: bs =>
    if a.toNat < b.toNat then true
    else if b.toNat < a.toNat then false
    else chars_le as bs

theorem chars_le_total : ∀ as bs, chars_le as bs = true ∨ chars_le bs as = true := by
  intro as
  induction as with
  | nil => intro bs; left; rfl
  | cons a as2 ih =>
    intro bs
    cases bs with
    | nil => right; rfl
    | cons b bs2 =>
      rcases Nat.lt_trichotomy a.toNat b.toNat with h | h | h
      · left; simp [chars_le, h]
      · rcases ih bs2 with h2 | h2
        · left; simp [chars_le, h, h2]
        · right; simp [chars_le, h.symm, h2]
      · right; simp [chars_le, h]

theorem chars_le_trans : ∀ as bs cs, chars_le as bs = true → chars_le bs cs = true →
    chars_le as cs = true := by
  intro as
  induction as with
  | nil => intro bs cs h1 h2; rfl
  | cons a as2 ih =>
    intro bs cs h1 h2
    cases bs with
    | nil => simp [chars_le] at h1
    | cons b bs2 =>
      cases cs with
      | nil => simp [chars_le] at h2
      | cons c cs2 =>
        simp only [chars_le] at h1 h2 ⊢
        by_cases hba : b.toNat < a.toNat
        · rw [if_neg (by omega), if_pos hba] at h1
          simp at h1
        · by_cases hcb : c.toNat < b.toNat
          · rw [if_neg (by omega), if_pos hcb] at h2
            simp at h2
          · by_cases hac : a.toNat < c.toNat
            · rw [if_pos hac]
            · rw [if_neg (by omega), if_neg hba] at h1
              rw [if_neg (by omega), if_neg hcb] at h2
              rw [if_neg hac, if_neg (by omega)]
              exact ih bs2 cs2 h1 h2

/-- Row comparison by primary name, the key used by petl `sort(key='name')`. -/
def row_le (a b : Row) : Prop :=
  chars_le (row_name a).data (row_name b).data = true

instance : DecidableRel row_le :=
  fun a b => inferInstanceAs (Decidable (chars_le (row_name a).data (row_name b).data = true))

instance : IsTotal Row row_le :=
  ⟨fun a b => chars_le_total (row_name a).data (row_name b).data⟩

instance : IsTrans Row row_le :=
  ⟨fun _ _ _ h1 h2 => chars_le_trans _ _ _ h1 h2⟩

/-- petl `sort(key='name')`: a stable sort by name.  Stable sorts by a fixed
key agree extensionally, so insertion sort with `row_le` models it. -/
def sort_by_name (rows : List Row) : List Row :=
  rows.insertionSort row_le

/-- petl `unique(key='name')` on a name-sorted table: keep exactly the rows
whose name occurs once; every row of a duplicated name is discarded. -/
def unique_by_name (rows : List Row) : List Row :=
  rows.filter (fun r => rows.countP (fun r2 => row_name r2 == row_name r) == 1)

/-- The dedup pass `sort(key='name').unique(key='name')` applied to each
dataset before the `lookup`. -/
def dedup_by_name (rows : List Row) : List Row :=
  unique_by_name (sort_by_name rows)

/-- `unify`: iterate the deduplicated newer (python3) dataset; for each name
also present in the deduplicated older (python2) dataset with a differing
abstract, append `v[0]` — the newer dataset's row — to the revised older
dataset.  The result fully replaces `output_py2.txt` (opened with mode `w`). -/
def unify (older newer : List Row) : List Row :=
  (dedup_by_name newer).filter (fun v =>
    match (dedup_by_name older).find? (fun r2 => row_name r2 == row_name v) with
    | some r2 => row_abstract v != row_abstract r2
    | none => false)

/-! ### Spec-side definition for the reconciler's dedup step

The specification describes the dedup step as "first occurrence wins on a
stable sort by name".  The following definition follows those words, for
comparison with `dedup_by_name` above (which follows petl `unique`). -/

/-- Keep the first row for each name, in order. -/
def keep_first_go (seen : List String) : List Row → List Row
  | [] => []
  | r :: rest =>
    if seen.contains (row_name r) then keep_first_go seen rest
    else r :: keep_first_go (row_name r :: seen) rest

/-- Modelled from the spec: the dedup step as the specification words it —
sort rows by name, then keep the first row for each name. -/
def dedup_keep_first_by_name (rows : List Row) : List Row :=
  keep_first_go [] (sort_by_name rows)

/-! ### Reconciler lemmas -/

theorem sorted_sort_by_name (l : List Row) : List.Sorted row_le (sort_by_name l) :=
  List.sorted_insertionSort row_le l

theorem mem_dedup_iff (l : List Row) (r : Row) :
    r ∈ dedup_by_name l ↔ r ∈ sort_by_name l ∧
      (sort_by_name l).countP (fun r2 => row_name r2 == row_name r) = 1 := by
  unfold dedup_by_name unique_by_name
  rw [List.mem_filter]
  constructor
  · rintro ⟨h1, h2⟩
    exact ⟨h1, by simpa using h2⟩
  · rintro ⟨h1, h2⟩
    exact ⟨h1, by simpa using h2⟩

theorem dedup_sublist_sort (l : List Row) : (dedup_by_name l).Sublist (sort_by_name l) := by
  unfold dedup_by_name unique_by_name
  exact List.filter_sublist _

theorem sorted_dedup (l : List Row) : List.Sorted row_le (dedup_by_name l) := by
  unfold dedup_by_name unique_by_name
  exact (sorted_sort_by_name l).filter _

theorem countP_dedup_self (l : List Row) (r : Row) (h : r ∈ dedup_by_name l) :
    (dedup_by_name l).countP (fun r2 => row_name r2 == row_name r) = 1 := by
  obtain ⟨hmem, hcount⟩ := (mem_dedup_iff l r).1 h
  have hle : (dedup_by_name l).countP (fun r2 => row_name r2 == row_name r) ≤
      (sort_by_name l).countP (fun r2 => row_name r2 == row_name r) :=
    List.Sublist.countP_le _ (dedup_sublist_sort l)
  have hpos : 0 < (dedup_by_name l).countP (fun r2 => row_name r2 == row_name r) :=
    List.countP_pos_iff.2 ⟨r, h, by simp⟩
  omega

theorem dedup_name_inj (l : List Row) (r w : Row) (hr : r ∈ dedup_by_name l)
    (hw : w ∈ dedup_by_name l) (hn : row_name r = row_name w) : r = w := by
  obtain ⟨hrS, hrc⟩ := (mem_dedup_iff l r).1 hr
  obtain ⟨hwS, _⟩ := (mem_dedup_iff l w).1 hw
  have hlen : ((sort_by_name l).filter (fun r2 => row_name r2 == row_name r)).length = 1 := by
    rw [← List.countP_eq_length_filter]
    exact hrc
  obtain ⟨x, hx⟩ := List.length_eq_one.1 hlen
  have hrmem : r ∈ (sort_by_name l).filter (fun r2 => row_name r2 == row_name r) :=
    List.mem_filter.2 ⟨hrS, by simp⟩
  have hwmem : w ∈ (sort_by_name l).filter (fun r2 => row_name r2 == row_name r) :=
    List.mem_filter.2 ⟨hwS, by simp [hn]⟩
  rw [hx] at hrmem hwmem
  simp only [List.mem_cons, List.not_mem_nil, or_false] at hrmem hwmem
  rw [hrmem, hwmem]

/-! ### Claim C1 -/

/-- The python2 (older) output row used for claim C1. -/
def py2_row : Row :=
  ["os.getcwd", "A", "", "", "", "", "", "", "https://docs.python.org", "", "", "abs-old", "u2"]

/-- The python3 (newer) output row used for claim C1. -/
def py3_row : Row :=
  ["os.getcwd", "A", "", "", "", "", "", "", "https://docs.python.org", "", "", "abs-new", "u3"]

/-- C1: for a name present in both deduplicated datasets with differing
abstracts, `unify` places the NEWER dataset's row (abstract `abs-new`) in the
revised older dataset, not the older dataset's row (abstract `abs-old`) as the
claim and the function's own docstring state. -/
theorem C1_unify_keeps_newer_row :
    unify [py2_row] [py3_row] = [py3_row] ∧
    row_name py3_row = row_name py2_row ∧
    row_abstract py2_row = "abs-old" ∧
    row_abstract py3_row = "abs-new" ∧
    row_abstract (unify [py2_row] [py3_row]).head! = "abs-new" := by decide

/-! ### Claim C4 -/

/-- C4: the revised older dataset has a row for name `n` iff `n` is present
in both deduplicated datasets and the two rows' abstracts differ. -/
theorem C4_revised_membership (older newer : List Row) (n : String) :
    (∃ r ∈ unify older newer, row_name r = n) ↔
    (∃ v ∈ dedup_by_name newer, row_name v = n ∧
      ∃ w ∈ dedup_by_name older, row_name w = n ∧ row_abstract v ≠ row_abstract w) := by
  unfold unify
  constructor
  · rintro ⟨r, hmem, hname⟩
    rw [List.mem_filter] at hmem
    obtain ⟨hr3, hpred⟩ := hmem
    cases hfind : (dedup_by_name older).find? (fun r2 => row_name r2 == row_name r) with
    | none => rw [hfind] at hpred; simp at hpred
    | some w =>
      rw [hfind] at hpred
      have hw_mem := List.mem_of_find?_eq_some hfind
      have hw_name : row_name w = row_name r := by
        have h2 := List.find?_some hfind
        simpa using h2
      refine ⟨r, hr3, hname, w, hw_mem, by rw [hw_name, hname], ?_⟩
      simpa using hpred
  · rintro ⟨v, hv3, hvn, w, hw2, hwn, hdiff⟩
    refine ⟨v, ?_, hvn⟩
    rw [List.mem_filter]
    refine ⟨hv3, ?_⟩
    have hsome : ((dedup_by_name older).find? (fun r2 => row_name r2 == row_name v)).isSome := by
      rw [List.find?_isSome]
      exact ⟨w, hw2, by simp [hwn, hvn]⟩
    cases hfind : (dedup_by_name older).find? (fun r2 => row_name r2 == row_name v) with
    | none => rw [hfind] at hsome; simp at hsome
    | some w2 =>
      have hw2mem := List.mem_of_find?_eq_some hfind
      have hw2name : row_name w2 = row_name v := by
        have h2 := List.find?_some hfind
        simpa using h2
      have hww : w2 = w := dedup_name_inj older w2 w hw2mem hw2 (by rw [hw2name, hvn, hwn])
      rw [hww]
      simpa using hdiff

/-! ### Claim C9 -/

/-- First duplicate-named row for the C9 counterexample. -/
def dup_row_a : Row :=
  ["os.getcwd", "A", "", "", "", "", "", "", "https://docs.python.org", "", "", "abs1", "u1"]

/-- Second duplicate-named row for the C9 counterexample. -/
def dup_row_b : Row :=
  ["os.getcwd", "A", "", "", "", "", "", "", "https://docs.python.org", "", "", "abs2", "u2"]

/-- C9 counterexample: the reconciler's dedup step is NOT "keep the first row
for each name": on two rows sharing a name it drops both, while the
spec-worded keep-first step retains the first. -/
theorem C9_counterexample :
    dedup_by_name [dup_row_a, dup_row_b] = [] ∧
    dedup_keep_first_by_name [dup_row_a, dup_row_b] = [dup_row_a] ∧
    dedup_by_name [dup_row_a, dup_row_b] ≠ dedup_keep_first_by_name [dup_row_a, dup_row_b] := by
  decide

/-- C9 (amended): the dedup step actually used (sort by name, then keep only
rows whose name occurs exactly once) is idempotent. -/
theorem C9_dedup_idempotent (rows : List Row) :
    dedup_by_name (dedup_by_name rows) = dedup_by_name rows := by
  have hsort : sort_by_name (dedup_by_name rows) = dedup_by_name rows :=
    List.Sorted.insertionSort_eq (sorted_dedup rows)
  show unique_by_name (sort_by_name (dedup_by_name rows)) = dedup_by_name rows
  rw [hsort]
  unfold unique_by_name
  rw [List.filter_eq_self]
  intro r hmem
  have h1 := countP_dedup_self rows r hmem
  simp [h1]

/-! ### String lemmas -/

theorem append_dot_ne_empty (a b : String) : a ++ "." ++ b ≠ "" := by
  intro h
  have h2 := congrArg String.length h
  rw [String.length_append, String.length_append] at h2
  have h3 : ("." : String).length = 1 := rfl
  have h4 : ("" : String).length = 0 := rfl
  omega

theorem join_dot_ne_empty (l : List String) (h : 2 ≤ l.length) : join_dot l ≠ "" := by
  match l, h with
  | a :: b :: rest, _ =>
    show a ++ "." ++ join_dot (b :: rest) ≠ ""
    exact append_dot_ne_empty a (join_dot (b :: rest))

/-! ### Extractor lemmas -/

theorem parse_for_class_method_eq (cn dn : Option String) (ps : List String)
    (hl : Option AnchorTag) (dtText : String) (idTag : String) :
    parse_for_class_method ⟨cn, dn, ps, hl, some ⟨dtText, some idTag⟩⟩ =
      (if 3 ≤ (split_dot idTag).length
       then .ok ((split_dot idTag).getD 0 "", (split_dot idTag).getD 1 "",
                 join_dot ((split_dot idTag).drop 2))
       else .ok ("", "", "")) := by
  show (if idTag ≠ "" then _ else _) = _
  by_cases hid : idTag = ""
  · rw [if_neg (by simp [hid]), hid]
    rw [if_neg (by decide)]
  · rw [if_pos hid]
    by_cases h3 : (split_dot idTag).length = 3
    · rw [if_pos h3, if_pos (by omega)]
      obtain ⟨a, b, c, habc⟩ := List.length_eq_three.1 h3
      rw [habc]
      rfl
    · by_cases h4 : (split_dot idTag).length > 3
      · rw [if_neg h3, if_pos h4, if_pos (by omega)]
      · rw [if_neg h3, if_neg h4, if_neg (by omega)]

/-! ### Claim C2 -/

/-- C2 (amended): a method block with a `dt` carrying identifier `idTag`
yields a record exactly when the identifier has at least 3 dot-segments and
the folded method name `join(parts[2:], ".")` is non-empty (for exactly 3
segments that is `parts[2]`, so an identifier like `"a.b."` yields nothing);
the record then has `module = parts[0]` and
`function = parts[1] + "." + join(parts[2:], ".")`. -/
theorem C2_class_method_split (doc : Document) (cn dn : Option String) (ps : List String)
    (hl : Option AnchorTag) (dtText : String) (idTag : String) :
    method_record doc ⟨cn, dn, ps, hl, some ⟨dtText, some idTag⟩⟩ =
      (if 3 ≤ (split_dot idTag).length ∧ join_dot ((split_dot idTag).drop 2) ≠ "" then
        .ok (some
          { module := (split_dot idTag).getD 0 "",
            function := (split_dot idTag).getD 1 "" ++ "." ++ join_dot ((split_dot idTag).drop 2),
            method_signature :=
              parse_for_method_signature ⟨cn, dn, ps, hl, some ⟨dtText, some idTag⟩⟩,
            first_paragraph :=
              parse_for_first_paragraph ⟨cn, dn, ps, hl, some ⟨dtText, some idTag⟩⟩,
            url := create_url doc.file_being_used doc.download_path
              ("#" ++ join_dot [(split_dot idTag).getD 0 "", (split_dot idTag).getD 1 "",
                 join_dot ((split_dot idTag).drop 2)]) })
       else .ok none) := by
  unfold method_record
  rw [parse_for_class_method_eq]
  by_cases h3 : 3 ≤ (split_dot idTag).length
  · rw [if_pos h3]
    by_cases hj : join_dot ((split_dot idTag).drop 2) ≠ ""
    · rw [if_pos ⟨h3, hj⟩]
      simp only [if_pos hj]
    · rw [if_neg (fun hc => hj hc.2)]
      simp only [ne_eq, not_not] at hj
      simp [hj]
  · rw [if_neg h3, if_neg (fun hc => h3 hc.1)]
    simp

/-- The method section of the C2 counterexample: its identifier `"a.b."`
has exactly 3 dot-segments but an empty third segment. -/
def method_section_empty_tail : HtmlSection :=
  ⟨none, none, [], none, some ⟨"", some "a.b."⟩⟩

/-- The single-block document of the C2 counterexample. -/
def doc_c2 : Document := ⟨"", "", [], [method_section_empty_tail], "f", "d"⟩

/-- C2 counterexample: identifier `"a.b."` splits into exactly 3 parts, yet
no record at all is emitted for the block (the claim asserts a record with
`module = "a"`, `function = "b."`). -/
theorem C2_counterexample :
    (split_dot "a.b.").length = 3 ∧ parse_for_data doc_c2 = .ok [] := by decide

/-! ### Totality and inversion lemmas for `parse_for_data` -/

/-- Whether the `a.headerlink` query result carries an `href` (vacuously
true when the element is absent); `tag['href']` raises exactly when this
fails. -/
def section_href_ok (s : HtmlSection) : Bool :=
  match s.headerlink with
  | some a => a.href.isSome
  | none => true

theorem function_record_total (doc : Document) (s : HtmlSection)
    (h : section_href_ok s = true) : ∃ o, function_record doc s = .ok o := by
  obtain ⟨cn, dn, ps, hl, dt⟩ := s
  unfold function_record
  by_cases hg : parse_for_module_name ⟨cn, dn, ps, hl, dt⟩ ≠ "" ∨
      parse_for_function_name ⟨cn, dn, ps, hl, dt⟩ ≠ ""
  · rw [if_pos hg]
    cases hl with
    | none => exact ⟨_, rfl⟩
    | some a =>
      obtain ⟨href⟩ := a
      cases href with
      | none => simp [section_href_ok] at h
      | some v => exact ⟨_, rfl⟩
  · rw [if_neg hg]
    exact ⟨none, rfl⟩

theorem method_record_total (doc : Document) (s : HtmlSection)
    (h : s.dt.isSome = true) : ∃ o, method_record doc s = .ok o := by
  obtain ⟨cn, dn, ps, hl, dt⟩ := s
  cases dt with
  | none => simp at h
  | some d =>
    obtain ⟨dtText, did⟩ := d
    cases did with
    | none => exact ⟨none, rfl⟩
    | some idTag =>
      unfold method_record
      rw [parse_for_class_method_eq]
      by_cases h3 : 3 ≤ (split_dot idTag).length
      · rw [if_pos h3]
        dsimp only
        by_cases hm : join_dot ((split_dot idTag).drop 2) ≠ ""
        · rw [if_pos hm]
          exact ⟨_, rfl⟩
        · rw [if_neg hm]
          exact ⟨none, rfl⟩
      · rw [if_neg h3]
        exact ⟨none, rfl⟩

theorem records_of_sections_total (f : HtmlSection → Except Unit (Option Record)) :
    ∀ l : List HtmlSection, (∀ s ∈ l, ∃ o, f s = .ok o) →
      ∃ rs, records_of_sections f l = .ok rs := by
  intro l
  induction l with
  | nil => exact fun _ => ⟨[], rfl⟩
  | cons s rest ih =>
    intro h
    obtain ⟨o, ho⟩ := h s (by simp)
    obtain ⟨rs2, hrs⟩ := ih (fun s2 hs2 => h s2 (by simp [hs2]))
    refine ⟨o.toList ++ rs2, ?_⟩
    unfold records_of_sections
    rw [ho, hrs]

theorem mem_records_of_sections (f : HtmlSection → Except Unit (Option Record)) :
    ∀ (l : List HtmlSection) (rs : List Record), records_of_sections f l = .ok rs →
      ∀ r ∈ rs, ∃ s ∈ l, f s = .ok (some r) := by
  intro l
  induction l with
  | nil =>
    intro rs h r hr
    unfold records_of_sections at h
    cases h
    simp at hr
  | cons s rest ih =>
    intro rs h r hr
    unfold records_of_sections at h
    cases hf : f s with
    | error e => rw [hf] at h; simp at h
    | ok o =>
      rw [hf] at h
      cases hrest : records_of_sections f rest with
      | error e => rw [hrest] at h; simp at h
      | ok rs2 =>
        rw [hrest] at h
        cases h
        rw [List.mem_append] at hr
        rcases hr with hin | hin
        · cases o with
          | none => simp at hin
          | some x =>
            simp only [Option.toList, List.mem_cons, List.not_mem_nil, or_false] at hin
            exact ⟨s, by simp, by rw [hf, hin]⟩
        · obtain ⟨s2, hs2, hfs2⟩ := ih rs2 hrest r hin
          exact ⟨s2, by simp [hs2], hfs2⟩

theorem parse_for_data_ok_inv (doc : Document) (rs : List Record)
    (h : parse_for_data doc = .ok rs) :
    ∃ fs ms, records_of_sections (function_record doc) doc.function_sections = .ok fs ∧
      records_of_sections (method_record doc) doc.method_sections = .ok ms ∧
      rs = intro_records doc ++ fs ++ ms := by
  unfold parse_for_data at h
  cases h1 : records_of_sections (function_record doc) doc.function_sections with
  | error e => rw [h1] at h; simp at h
  | ok fs =>
    rw [h1] at h
    cases h2 : records_of_sections (method_record doc) doc.method_sections with
    | error e => rw [h2] at h; simp at h
    | ok ms =>
      rw [h2] at h
      cases h
      exact ⟨fs, ms, rfl, rfl, rfl⟩

theorem mem_intro_records (doc : Document) (r : Record) (h : r ∈ intro_records doc) :
    doc.title ≠ "" ∧ r.module = doc.title ∧ r.function = "" := by
  unfold intro_records at h
  by_cases hc : doc.intro_text ≠ "" ∧ doc.title ≠ ""
  · rw [if_pos hc] at h
    simp only [List.mem_cons, List.not_mem_nil, or_false] at h
    rw [h]
    exact ⟨hc.2, rfl, rfl⟩
  · rw [if_neg hc] at h
    simp at h

theorem function_record_ok_some (doc : Document) (s : HtmlSection) (r : Record)
    (h : function_record doc s = .ok (some r)) :
    (parse_for_module_name s ≠ "" ∨ parse_for_function_name s ≠ "") ∧
    r.module = parse_for_module_name s ∧ r.function = parse_for_function_name s ∧
    ∃ anchor, r.url = create_url doc.file_being_used doc.download_path anchor := by
  unfold function_record at h
  by_cases hg : parse_for_module_name s ≠ "" ∨ parse_for_function_name s ≠ ""
  · rw [if_pos hg] at h
    cases ha : parse_for_anchor s with
    | error e => rw [ha] at h; simp at h
    | ok anchor =>
      rw [ha] at h
      simp only [Except.ok.injEq, Option.some.injEq] at h
      rw [← h]
      exact ⟨hg, rfl, rfl, anchor, rfl⟩
  · rw [if_neg hg] at h
    simp at h

theorem method_record_ok_some (doc : Document) (s : HtmlSection) (r : Record)
    (h : method_record doc s = .ok (some r)) :
    ∃ module class_name method,
      parse_for_class_method s = .ok (module, class_name, method) ∧ method ≠ "" ∧
      r.module = module ∧ r.function = class_name ++ "." ++ method ∧
      r.url = create_url doc.file_being_used doc.download_path
        ("#" ++ join_dot [module, class_name, method]) := by
  unfold method_record at h
  cases hp : parse_for_class_method s with
  | error e => rw [hp] at h; simp at h
  | ok t =>
    obtain ⟨module, class_name, method⟩ := t
    rw [hp] at h
    dsimp only at h
    by_cases hm : method ≠ ""
    · rw [if_pos hm] at h
      simp only [Except.ok.injEq, Option.some.injEq] at h
      rw [← h]
      exact ⟨module, class_name, method, rfl, hm, rfl, rfl, rfl⟩
    · rw [if_neg hm] at h
      simp at h

theorem function_record_none_iff (doc : Document) (s : HtmlSection) :
    function_record doc s = .ok none ↔
      (parse_for_module_name s = "" ∧ parse_for_function_name s = "") := by
  unfold function_record
  by_cases hg : parse_for_module_name s ≠ "" ∨ parse_for_function_name s ≠ ""
  · rw [if_pos hg]
    constructor
    · intro h
      cases ha : parse_for_anchor s with
      | error e => rw [ha] at h; simp at h
      | ok anchor => rw [ha] at h; simp at h
    · intro h
      exfalso
      rcases hg with hm | hf
      · exact hm h.1
      · exact hf h.2
  · rw [if_neg hg]
    push_neg at hg
    simpa using hg

theorem method_record_none_iff (doc : Document) (s : HtmlSection) (d : DtElem)
    (hd : s.dt = some d) :
    method_record doc s = .ok none ↔
      ((split_dot (d.id.getD "")).length < 3 ∨
        join_dot ((split_dot (d.id.getD "")).drop 2) = "") := by
  obtain ⟨cn, dn, ps, hl, dt⟩ := s
  dsimp only at hd
  subst hd
  obtain ⟨dtText, did⟩ := d
  cases did with
  | none =>
    constructor
    · intro _
      left
      show (split_dot "").length < 3
      decide
    · intro _
      rfl
  | some idTag =>
    unfold method_record
    rw [parse_for_class_method_eq]
    dsimp only [Option.getD]
    by_cases h3 : 3 ≤ (split_dot idTag).length
    · rw [if_pos h3]
      dsimp only
      by_cases hj : join_dot ((split_dot idTag).drop 2) ≠ ""
      · rw [if_pos hj]
        constructor
        · intro h
          simp at h
        · intro h
          rcases h with h | h
          · omega
          · exact absurd h hj
      · rw [if_neg hj]
        simp only [ne_eq, not_not] at hj
        constructor
        · intro _
          right
          exact hj
        · intro _
          rfl
    · rw [if_neg h3]
      constructor
      · intro _
        left
        omega
      · intro _
        rfl

/-! ### Claim C5 -/

/-- C5 (amended): extraction is total — every missing element degrading to
an empty string — provided every method block has a `dt` element and every
present header permalink carries an `href`; a function block is dropped
exactly when module and function are both empty, and a method block with
`dt` is dropped exactly when its identifier has fewer than 3 dot-segments or
the folded method name is empty. -/
theorem C5_extraction_total (doc : Document)
    (hdt : ∀ s ∈ doc.method_sections, s.dt.isSome = true)
    (hhref : ∀ s ∈ doc.function_sections, section_href_ok s = true) :
    (∃ rs, parse_for_data doc = .ok rs) ∧
    (∀ s ∈ doc.function_sections,
       (function_record doc s = .ok none ↔
         (parse_for_module_name s = "" ∧ parse_for_function_name s = ""))) ∧
    (∀ s ∈ doc.method_sections, ∀ d, s.dt = some d →
       (method_record doc s = .ok none ↔
         ((split_dot (d.id.getD "")).length < 3 ∨
           join_dot ((split_dot (d.id.getD "")).drop 2) = ""))) := by
  refine ⟨?_, fun s _ => function_record_none_iff doc s,
    fun s _ d hd => method_record_none_iff doc s d hd⟩
  obtain ⟨fs, hfs⟩ := records_of_sections_total (function_record doc) doc.function_sections
    (fun s hs => function_record_total doc s (hhref s hs))
  obtain ⟨ms, hms⟩ := records_of_sections_total (method_record doc) doc.method_sections
    (fun s hs => method_record_total doc s (hdt s hs))
  refine ⟨intro_records doc ++ fs ++ ms, ?_⟩
  unfold parse_for_data
  rw [hfs, hms]

/-- A method block with no `dt` element at all. -/
def method_section_no_dt : HtmlSection := ⟨none, none, [], none, none⟩

/-- The single-block document of the C5 counterexample. -/
def doc_no_dt : Document := ⟨"", "", [], [method_section_no_dt], "f", "d"⟩

/-- C5 counterexample: extraction raises (models
`section.find('dt').get('id')` throwing `AttributeError`) on a method block
lacking a `dt` element, rather than degrading to empty strings. -/
theorem C5_counterexample :
    method_section_no_dt.dt = none ∧ parse_for_data doc_no_dt = .error () := by decide

/-- Whether extraction succeeded. -/
def except_is_ok : Except Unit (List Record) → Bool
  | .ok _ => true
  | .error _ => false

/-- A well-formed function block for the C5 witness. -/
def func_section_c5 : HtmlSection :=
  ⟨some "os.", some "getcwd", ["Return the current directory."],
   some ⟨some "#os.getcwd"⟩, some ⟨"os.getcwd()", none⟩⟩

/-- A well-formed method block for the C5 witness. -/
def method_section_c5 : HtmlSection :=
  ⟨none, none, [], none, some ⟨"sig", some "a.b.c"⟩⟩

/-- The document of the C5 witness. -/
def doc_c5w : Document := ⟨"", "", [func_section_c5], [method_section_c5], "/os.html", "dl"⟩

theorem C5_witness : except_is_ok (parse_for_data doc_c5w) = true := by
  obtain ⟨rs, h⟩ := (C5_extraction_total doc_c5w (by decide) (by decide)).1
  rw [h]
  rfl

/-! ### Claim C6 -/

/-- C6 (amended): no emitted record has module and function both empty (and
the writer accepts every emitted record); every emitted record with an empty
function field is the module-level intro record or comes from a function
block whose name element was missing or empty. -/
theorem C6_no_nameless_record (doc : Document) (rs : List Record)
    (h : parse_for_data doc = .ok rs) :
    (∀ r ∈ rs, r.module ≠ "" ∨ r.function ≠ "") ∧
    (∀ r ∈ rs, rows_for_record r ≠ []) ∧
    (∀ r ∈ rs, r.function = "" →
      r ∈ intro_records doc ∨
        ∃ s ∈ doc.function_sections, function_record doc s = .ok (some r) ∧
          parse_for_function_name s = "") := by
  obtain ⟨fs, ms, hfs, hms, rfl⟩ := parse_for_data_ok_inv doc rs h
  have hguard : ∀ r ∈ intro_records doc ++ fs ++ ms, r.module ≠ "" ∨ r.function ≠ "" := by
    intro r hr
    rw [List.mem_append] at hr
    rcases hr with hr | hr
    · rw [List.mem_append] at hr
      rcases hr with hr | hr
      · obtain ⟨ht, hm, _⟩ := mem_intro_records doc r hr
        left
        rw [hm]
        exact ht
      · obtain ⟨s, _, hfr⟩ := mem_records_of_sections _ _ fs hfs r hr
        obtain ⟨hg, hm, hf, _⟩ := function_record_ok_some doc s r hfr
        rw [hm, hf]
        exact hg
    · obtain ⟨s, _, hmr⟩ := mem_records_of_sections _ _ ms hms r hr
      obtain ⟨m, c, meth, _, _, _, hf, _⟩ := method_record_ok_some doc s r hmr
      right
      rw [hf]
      exact append_dot_ne_empty c meth
  refine ⟨hguard, ?_, ?_⟩
  · intro r hr
    unfold rows_for_record
    rw [if_pos (hguard r hr)]
    exact List.cons_ne_nil _ _
  · intro r hr hfun
    rw [List.mem_append] at hr
    rcases hr with hr | hr
    · rw [List.mem_append] at hr
      rcases hr with hr | hr
      · left
        exact hr
      · right
        obtain ⟨s, hs, hfr⟩ := mem_records_of_sections _ _ fs hfs r hr
        obtain ⟨_, _, hf, _⟩ := function_record_ok_some doc s r hfr
        exact ⟨s, hs, hfr, by rw [← hf]; exact hfun⟩
    · obtain ⟨s, _, hmr⟩ := mem_records_of_sections _ _ ms hms r hr
      obtain ⟨m, c, meth, _, _, _, hf, _⟩ := method_record_ok_some doc s r hmr
      exact absurd hfun (by rw [hf]; exact append_dot_ne_empty c meth)

/-- A function block carrying a module name (`"os."`) but no function-name
element. -/
def func_section_no_name : HtmlSection := ⟨some "os.", none, [], none, none⟩

/-- The single-block document of the C6 counterexample. -/
def doc_func_no_name : Document := ⟨"", "", [func_section_no_name], [], "f", "d"⟩

/-- The record that document yields: empty `function`, non-empty `module`. -/
def rec_empty_function : Record := ⟨"os", "", "", "", "https://docs.python.org/3.5f"⟩

/-- C6 counterexample: a function block with a module name but no function
name yields an emitted, writer-accepted record whose `function` is empty,
and it is not the module-level intro record (the document has none). -/
theorem C6_counterexample :
    parse_for_data doc_func_no_name = .ok [rec_empty_function] ∧
    rec_empty_function.function = "" ∧ rec_empty_function.module ≠ "" ∧
    intro_records doc_func_no_name = [] ∧
    rows_for_record rec_empty_function ≠ [] := by decide

/-! ### Claim C8 -/

/-- C8: every record of every document is formatted against the fixed
version-3-style base URL template, substituting the relative file path (the
download path stripped by `str.replace`) plus an anchor. -/
theorem C8_url_template (doc : Document) (rs : List Record)
    (h : parse_for_data doc = .ok rs) (r : Record) (hr : r ∈ rs) :
    ∃ anchor, r.url = PYTHON_DOC_BASE_URL
      (py_replace doc.file_being_used doc.download_path "" ++ anchor) := by
  obtain ⟨fs, ms, hfs, hms, rfl⟩ := parse_for_data_ok_inv doc rs h
  rw [List.mem_append] at hr
  rcases hr with hr | hr
  · rw [List.mem_append] at hr
    rcases hr with hr | hr
    · unfold intro_records at hr
      by_cases hc : doc.intro_text ≠ "" ∧ doc.title ≠ ""
      · rw [if_pos hc] at hr
        simp only [List.mem_cons, List.not_mem_nil, or_false] at hr
        rw [hr]
        exact ⟨"", rfl⟩
      · rw [if_neg hc] at hr
        simp at hr
    · obtain ⟨s, _, hfr⟩ := mem_records_of_sections _ _ fs hfs r hr
      obtain ⟨_, _, _, anchor, hurl⟩ := function_record_ok_some doc s r hfr
      exact ⟨anchor, hurl⟩
  · obtain ⟨s, _, hmr⟩ := mem_records_of_sections _ _ ms hms r hr
    obtain ⟨m, c, meth, _, _, _, _, hurl⟩ := method_record_ok_some doc s r hmr
    exact ⟨"#" ++ join_dot [m, c, meth], hurl⟩

/-- An intro-only document for the C8 witness. -/
def doc_intro_only : Document := ⟨"intro", "title", [], [], "f", "d"⟩

/-- The single record that document yields. -/
def rec_intro_only : Record := ⟨"title", "", "", "intro", "https://docs.python.org/3.5f"⟩

theorem C8_witness :
    ∃ anchor, rec_intro_only.url = PYTHON_DOC_BASE_URL
      (py_replace "f" "d" "" ++ anchor) :=
  C8_url_template doc_intro_only [rec_intro_only] (by decide) rec_intro_only (by decide)

theorem C6_witness : rec_intro_only.module ≠ "" ∨ rec_intro_only.function ≠ "" :=
  (C6_no_nameless_record doc_intro_only [rec_intro_only] (by decide)).1
    rec_intro_only (by decide)

/-! ### Claim C3 -/

/-- The amended claim's primary-name formula: the dotted name, trimmed in
every branch (the source strips in all cases). -/
def claimed_dotted_name (m f : String) : String :=
  if m ≠ "" ∧ f ≠ "" then py_strip (m ++ "." ++ f)
  else if m ≠ "" then py_strip m
  else py_strip f

/-- The claim's redirect-name formula: space-joined and trimmed. -/
def claimed_spaced_name (m f : String) : String :=
  py_strip (m ++ " " ++ f)

theorem create_names_fst (m f : String) :
    (create_names_from_data m f).1 = claimed_dotted_name m f := by
  unfold create_names_from_data claimed_dotted_name
  by_cases hm : m = "" <;> by_cases hf : f = "" <;>
    simp [hm, hf, String.empty_append, String.append_empty]

theorem create_names_snd (m f : String) :
    (create_names_from_data m f).2 = claimed_spaced_name m f := rfl

/-- C3 counterexample: for module `"a"` and function `"b "` (both non-empty),
the writer's primary name is the trimmed `"a.b"`, not the untrimmed
concatenation `module + "." + function` the claim states for that branch. -/
theorem C3_counterexample :
    ("a" : String) ≠ "" ∧ ("b " : String) ≠ "" ∧
    (create_names_from_data "a" "b ").1 ≠ "a" ++ "." ++ "b " := by decide

/-- C3 (amended): for every accepted record the writer emits exactly one `A`
row named the trimmed dotted name (trim applied in the both-non-empty branch
too), followed by an `R` row from the trimmed spaced name to the dotted name
iff the two differ. -/
theorem C3_writer_names (r : Record) (h : r.module ≠ "" ∨ r.function ≠ "") :
    rows_for_record r =
      a_row (claimed_dotted_name r.module r.function)
        (abstract_of r.method_signature r.first_paragraph) r.url ::
      (if claimed_spaced_name r.module r.function ≠ claimed_dotted_name r.module r.function
       then [r_row (claimed_spaced_name r.module r.function)
              (claimed_dotted_name r.module r.function)]
       else []) := by
  unfold rows_for_record
  rw [if_pos h, create_names_fst, create_names_snd]

/-- The record used by the C3 witness. -/
def writer_record : Record := ⟨"os", "getcwd", "", "", "u"⟩

theorem C3_witness :
    rows_for_record writer_record =
      a_row (claimed_dotted_name "os" "getcwd") (abstract_of "" "") "u" ::
      (if claimed_spaced_name "os" "getcwd" ≠ claimed_dotted_name "os" "getcwd"
       then [r_row (claimed_spaced_name "os" "getcwd") (claimed_dotted_name "os" "getcwd")]
       else []) :=
  C3_writer_names writer_record (by decide)

/-! ### Claim C7 -/

theorem abstract_of_eq (sg pr : String) :
    abstract_of sg pr =
      (if sg ≠ "" ∧ pr ≠ "" then sg ++ "<br>" ++ pr
       else if sg ≠ "" then sg else pr) := by
  unfold abstract_of
  by_cases hs : sg = "" <;> by_cases hp : pr = "" <;>
    simp [hs, hp, String.empty_append, String.append_empty]

/-- C7: the abstract of every emitted `A` row is the signature and the
summary joined by `<br>` when both are non-empty, the non-empty one when
exactly one is, and empty when both are. -/
theorem C7_a_row_abstract (data : List Record) (row : Row)
    (h1 : row ∈ create_file data) (h2 : row.getD 1 "" = "A") :
    ∃ r ∈ data, row_abstract row =
      (if r.method_signature ≠ "" ∧ r.first_paragraph ≠ ""
       then r.method_signature ++ "<br>" ++ r.first_paragraph
       else if r.method_signature ≠ "" then r.method_signature
       else r.first_paragraph) := by
  unfold create_file at h1
  rw [List.mem_flatten] at h1
  obtain ⟨l, hl, hrow⟩ := h1
  rw [List.mem_map] at hl
  obtain ⟨r, hr, rfl⟩ := hl
  refine ⟨r, hr, ?_⟩
  unfold rows_for_record at hrow
  by_cases hg : r.module ≠ "" ∨ r.function ≠ ""
  · rw [if_pos hg] at hrow
    rw [List.mem_cons] at hrow
    rcases hrow with hrow | hrow
    · rw [hrow, ← abstract_of_eq]
      rfl
    · exfalso
      by_cases hne : (create_names_from_data r.module r.function).2 ≠
          (create_names_from_data r.module r.function).1
      · rw [if_pos hne] at hrow
        simp only [List.mem_cons, List.not_mem_nil, or_false] at hrow
        rw [hrow] at h2
        have h3 : ("R" : String) = "A" := h2
        exact absurd h3 (by decide)
      · rw [if_neg hne] at hrow
        simp at hrow
  · rw [if_neg hg] at hrow
    simp at hrow

/-- The record used by the C7 witness. -/
def rec_c7 : Record := ⟨"m", "f", "sig", "para", "u"⟩

theorem C7_witness :
    ∃ r ∈ [rec_c7], row_abstract (a_row "m.f" "sig<br>para" "u") =
      (if r.method_signature ≠ "" ∧ r.first_paragraph ≠ ""
       then r.method_signature ++ "<br>" ++ r.first_paragraph
       else if r.method_signature ≠ "" then r.method_signature
       else r.first_paragraph) :=
  C7_a_row_abstract [rec_c7] (a_row "m.f" "sig<br>para" "u") (by decide) (by decide)

/-! ### Claim C10 -/

theorem head_dropWhile_false (p : Char → Bool) (l : List Char) :
    ∀ a, (l.dropWhile p).head? = some a → p a = false := by
  induction l with
  | nil =>
    intro a h
    simp at h
  | cons c cs ih =>
    intro a h
    rw [List.dropWhile_cons] at h
    by_cases hc : p c = true
    · rw [if_pos hc] at h
      exact ih a h
    · rw [if_neg hc] at h
      simp only [List.head?_cons, Option.some.injEq] at h
      simp only [Bool.not_eq_true] at hc
      rw [← h]
      exact hc

theorem rstrip_dots_decomp (t : String) :
    ∃ n, t.data = (rstrip_dots t).data ++ List.replicate n ('.' : Char) := by
  refine ⟨(t.data.reverse.takeWhile (fun c => c == '.')).length, ?_⟩
  have h1 : (rstrip_dots t).data = (t.data.reverse.dropWhile (fun c => c == '.')).reverse := rfl
  rw [h1]
  have h2 : t.data.reverse.takeWhile (fun c => c == '.') =
      List.replicate (t.data.reverse.takeWhile (fun c => c == '.')).length ('.' : Char) :=
    List.eq_replicate_of_mem (fun b hb => by simpa using List.mem_takeWhile_imp hb)
  calc t.data = t.data.reverse.reverse := (List.reverse_reverse _).symm
    _ = (t.data.reverse.takeWhile (fun c => c == '.') ++
          t.data.reverse.dropWhile (fun c => c == '.')).reverse := by
        rw [List.takeWhile_append_dropWhile]
    _ = (t.data.reverse.dropWhile (fun c => c == '.')).reverse ++
          (t.data.reverse.takeWhile (fun c => c == '.')).reverse := by
        rw [List.reverse_append]
    _ = (t.data.reverse.dropWhile (fun c => c == '.')).reverse ++
          List.replicate (t.data.reverse.takeWhile (fun c => c == '.')).length ('.' : Char) := by
        rw [h2, List.reverse_replicate, List.length_replicate]

theorem rstrip_dots_no_trailing (t : String) :
    (rstrip_dots t).data.getLast? ≠ some ('.' : Char) := by
  intro h
  have h1 : (rstrip_dots t).data.getLast? =
      (t.data.reverse.dropWhile (fun c => c == '.')).head? := by
    show (t.data.reverse.dropWhile (fun c => c == '.')).reverse.getLast? = _
    rw [List.getLast?_reverse]
  rw [h1] at h
  have h2 := head_dropWhile_false (fun c => c == '.') t.data.reverse ('.' : Char) h
  simp at h2

/-- C10: module-name extraction removes every trailing `.` — the element
text decomposes as the returned module followed by some run of dots, the
returned module never ends with a dot, and `"socket.."` yields `"socket"`. -/
theorem C10_module_strips_all_trailing_dots :
    (∀ (t : String) (dn : Option String) (ps : List String) (hl : Option AnchorTag)
        (dt : Option DtElem), ∃ n : Nat,
        t.data = (parse_for_module_name ⟨some t, dn, ps, hl, dt⟩).data ++
          List.replicate n ('.' : Char)) ∧
    (∀ s : HtmlSection, (parse_for_module_name s).data.getLast? ≠ some ('.' : Char)) ∧
    parse_for_module_name ⟨some "socket..", none, [], none, none⟩ = "socket" := by
  refine ⟨fun t dn ps hl dt => rstrip_dots_decomp t, fun s => ?_, by decide⟩
  obtain ⟨cn, dn, ps, hl, dt⟩ := s
  cases cn with
  | none => simp [parse_for_module_name]
  | some t => exact rstrip_dots_no_trailing t

end PyFathead
